import Mathlib

/-
Verification of the skyobject Pack engine (content-addressed object-graph
store).  The Go source is shallowly embedded below: the `Pack` structure and
its methods (`get`, `add`, `set`, `Save`, `init`, `Refs`, `RefByIndex`,
`Append`, `Pop`) are translated from the source file defining `type Pack`.
External collaborators that are not part of the repository (the key-value
backend transaction primitives, the SHA-256 hash, and the reference-model
file declaring `Dynamic`/`walkNode` methods `Value`, `SetValue`, `Attach`,
`Detach`) are modelled: the hash is an arbitrary function parameter, the
backend is a key-value map with rollback-on-error transactions, and the
reference-model methods follow the specification text (each is marked
`Modelled from the spec:` in its doc comment).
-/

namespace CXO

/-- Byte slices (`[]byte`) are lists of natural numbers (byte values). -/
abbrev Bytes := List Nat

/-- `cipher.SHA256` keys, modelled as natural numbers (opaque key values). -/
abbrev Hash := Nat

/-- A Go `map[cipher.SHA256][]byte`, modelled as an association list with
at most one entry per key (maintained by `Store.set`). -/
abbrev Store := List (Hash × Bytes)

/-- Map lookup: first binding of the key, if any. -/
def Store.get (s : Store) (k : Hash) : Option Bytes :=
  match s with
  | [] => none
  | (k₀, v₀) :: rest => if k₀ = k then some v₀ else Store.get rest k

/-- Map assignment `m[k] = v`: replaces the existing binding or appends. -/
def Store.set (s : Store) (k : Hash) (v : Bytes) : Store :=
  match s with
  | [] => [(k, v)]
  | (k₀, v₀) :: rest =>
    if k₀ = k then (k, v) :: rest else (k₀, v₀) :: Store.set rest k v

/-- Write every binding of `src` into `dst` (the `tx.Objects().SetMap`
batch write, and the migrate-into-cache loop of `Save`). -/
def Store.setAll (dst src : Store) : Store :=
  List.foldl (fun d kv => Store.set d kv.1 kv.2) dst src

/-- Well-formedness of a map: keys are pairwise distinct (Go map invariant). -/
def Store.wf (s : Store) : Prop := (s.map Prod.fst).Nodup

instance (s : Store) : Decidable (Store.wf s) := by
  unfold Store.wf; infer_instance

/-- Errors surfaced by the Pack engine: `ErrViewOnlyTree`,
`ErrIndexOutOfRange` (package-level variables in the source), the
`object [..] not found` error of `Pack.get`, and a transaction failure
reported by the backend `Update` primitive. -/
inductive Err where
  | viewOnlyTree
  | indexOutOfRange
  | notFound (k : Hash)
  | txFail
deriving DecidableEq, Repr

/-- Unpacking flags, a bitset (`Flag int` with iota shifts). -/
def EntireMerkleTrees : Nat := 1

/-- `EntireTree`: unpack all possible on init. -/
def EntireTree : Nat := 2

/-- `HashTableIndex` flag bit. -/
def HashTableIndex : Nat := 4

/-- `ViewOnly`: don't allow modifications. -/
def ViewOnly : Nat := 8

/-- `GoTypes`: pack/unpack from/to golang values. -/
def GoTypes : Nat := 16

/-- Modelled from the spec: the `walkNode` record of the reference-model
file (absent from the visible source).  It carries the lazily cached
materialized value (`none` while Unresolved) and the recorded position of
the reference inside its parent collection.  The back-pointer `wn.pack` is
represented implicitly by passing the `Pack` to the methods that need it. -/
structure WalkNode where
  value : Option Bytes := none
  pos : Option Nat := none
deriving DecidableEq, Repr

/-- A `Dynamic` reference: schema hash, object hash, and an optional
`walkNode` (`nil` pointer = `none`).  A blank (zero-valued) `Dynamic` has
zero hashes and no walkNode. -/
structure Dynamic where
  schemaHash : Hash := 0
  objectHash : Hash := 0
  walkNode : Option WalkNode := none
deriving DecidableEq, Repr

instance : Inhabited Dynamic := ⟨{}⟩

/-- The recorded position bookkeeping of a reference, if any. -/
def Dynamic.recordedPos (d : Dynamic) : Option Nat :=
  match d.walkNode with
  | some wn => wn.pos
  | none => none

/-- A reference is materialized (Resolved) when its walkNode caches a
value. -/
def Dynamic.resolved (d : Dynamic) : Bool :=
  match d.walkNode with
  | some wn => wn.value.isSome
  | none => false

/-- The `Root`: sequence number, timestamp and ordered top-level
reference list. -/
structure Root where
  Seq : Nat := 0
  Time : Int := 0
  Refs : List Dynamic := []
deriving DecidableEq, Repr

/-- `data.RootPack`, the committed Root snapshot returned by `Save`
(hash, sequence, timestamp); the source returns it as a named result that
is never assigned, i.e. the zero value. -/
structure RootPack where
  hash : Hash := 0
  seq : Nat := 0
  time : Int := 0
deriving DecidableEq, Repr

/-- The `Pack`: database cache for new objects.  `unsaved` is the
in-memory write buffer, `cache` the read cache filled by `Save`, and `db`
the objects bucket of the underlying key-value backend (the Content
Store), accessed through `View`/`Update` transactions. -/
structure Pack where
  flags : Nat := GoTypes
  r : Root := {}
  unsaved : Store := []
  cache : Store := []
  db : Store := []
deriving DecidableEq, Repr

/-- `Pack.get`: read through the write buffer first, then a read-only
transaction against the backend; error if absent in both. -/
def Pack.get (p : Pack) (key : Hash) : Except Err Bytes :=
  match Store.get p.unsaved key with
  | some val => .ok val
  | none =>
    match Store.get p.db key with
    | some val => .ok val
    | none => .error (.notFound key)

/-- `Pack.set`: stage an encoded object into the write buffer. -/
def Pack.set (p : Pack) (key : Hash) (val : Bytes) : Pack :=
  { p with unsaved := Store.set p.unsaved key val }

/-- `Pack.add`: hash the value (`cipher.SumSHA256`, supplied as the
parameter `sum` since the hash is an external library function) and
stage it under that key via `set`. -/
def Pack.add (sum : Bytes → Hash) (p : Pack) (val : Bytes) : Pack × Hash :=
  (Pack.set p (sum val) val, sum val)

/-- `Pack.Save`: refuse if `ViewOnly`; otherwise stamp the timestamp
(`now` models `time.Now().UnixNano()`), run one read-write transaction
writing the whole buffer via `SetMap` (the Root itself is a `TODO` in the
source and is not written; the named result `root` is never assigned),
and only on transaction success migrate staged entries into the read
cache and clear the buffer.  The parameter `tf` injects a backend write
failure into the transaction, which then rolls back, leaving `db`
untouched.  The sequence number is not modified anywhere despite the
source comment `setup timestamp and seq number`. -/
def Pack.Save (p : Pack) (now : Int) (tf : Bool) : Pack × RootPack × Option Err :=
  if p.flags &&& ViewOnly ≠ 0 then
    (p, {}, some .viewOnlyTree)
  else
    let p₁ : Pack := { p with r := { p.r with Time := now } }
    if tf && !p₁.unsaved.isEmpty then
      (p₁, {}, some .txFail)
    else
      ({ p₁ with db := Store.setAll p₁.db p₁.unsaved,
                 cache := Store.setAll p₁.cache p₁.unsaved,
                 unsaved := [] }, {}, none)

/-- Modelled from the spec: `Dynamic.Value` of the reference-model file
(absent from the visible source).  If already Resolved it returns the
cached value with no I/O; if Unresolved it fetches the bytes through the
Pack's `get`, caches them in the walkNode (creating one if the pointer is
nil) and returns the materialized reference.  Decoding through the Type
Registry is not modelled separately: the materialized value is the
fetched payload. -/
def Dynamic.Value (p : Pack) (d : Dynamic) : Except Err (Dynamic × Bytes) :=
  match d.walkNode with
  | some wn =>
    match wn.value with
    | some v => .ok (d, v)
    | none =>
      match Pack.get p d.objectHash with
      | .ok val => .ok ({ d with walkNode := some { wn with value := some val } }, val)
      | .error e => .error e
  | none =>
    match Pack.get p d.objectHash with
    | .ok val => .ok ({ d with walkNode := some { value := some val } }, val)
    | .error e => .error e

/-- Modelled from the spec: `Dynamic.Attach` — pure bookkeeping that
records the reference's new index within its parent collection. -/
def Dynamic.Attach (d : Dynamic) (i : Nat) : Dynamic :=
  match d.walkNode with
  | some wn => { d with walkNode := some { wn with pos := some i } }
  | none => d

/-- Modelled from the spec: `Dynamic.Detach` — clears the recorded
position, leaving hash and cached value intact. -/
def Dynamic.Detach (d : Dynamic) : Dynamic :=
  match d.walkNode with
  | some wn => { d with walkNode := some { wn with pos := none } }
  | none => d

/-- Modelled from the spec: `Dynamic.SetValue` — encodes the value (the
encoding is the payload itself here, the codec being opaque), replaces
the cached value and the target hash, and stages the encoded bytes into
the Pack's write buffer (mutations stage into the write buffer; writes to
the store are deferred to `Save`). -/
def Dynamic.SetValue (sum : Bytes → Hash) (p : Pack) (d : Dynamic) (val : Bytes) :
    Pack × Dynamic :=
  (Pack.set p (sum val) val,
   { d with objectHash := sum val,
            walkNode := some { value := some val, pos := d.recordedPos } })

/-- The resolution loop of `Pack.Refs`: walk the reference list, calling
`Value` on every entry whose walkNode is nil, stopping at the first
error (entries already visited stay materialized, the in-place mutation
of the Go slice). -/
def Pack.resolveAll (p : Pack) (refs : List Dynamic) : List Dynamic × Option Err :=
  match refs with
  | [] => ([], none)
  | d :: rest =>
    match d.walkNode with
    | some _ =>
      let re := Pack.resolveAll p rest
      (d :: re.1, re.2)
    | none =>
      match Dynamic.Value p d with
      | .error e => (d :: rest, some e)
      | .ok dv =>
        let re := Pack.resolveAll p rest
        (dv.1 :: re.1, re.2)

/-- `Pack.Refs`: make the Root's references unpacked.  The returned slice
`drs` is a named result the source never assigns, so the method returns
the empty list; its effect is the in-place materialization of
`Root.Refs`. -/
def Pack.Refs (p : Pack) : Pack × List Dynamic × Option Err :=
  let re := Pack.resolveAll p p.r.Refs
  ({ p with r := { p.r with Refs := re.1 } }, [], re.2)

/-- `Pack.init`: if the `EntireTree` flag is set, unpack all possible via
`Refs`. -/
def Pack.init (p : Pack) : Pack × Option Err :=
  if p.flags &&& EntireTree ≠ 0 then
    let re := Pack.Refs p
    (re.1, re.2.2)
  else
    (p, none)

/-- `Pack.RefByIndex`: `ErrIndexOutOfRange` outside `[0, len(Refs))`;
inside the range, unpack the single entry if its walkNode is nil and
return it. -/
def Pack.RefByIndex (p : Pack) (i : Int) : Pack × Dynamic × Option Err :=
  if i < 0 ∨ (p.r.Refs.length : Int) ≤ i then
    (p, {}, some .indexOutOfRange)
  else
    let n := i.toNat
    let d := p.r.Refs.getD n {}
    match d.walkNode with
    | some _ => (p, d, none)
    | none =>
      match Dynamic.Value p d with
      | .ok dv =>
        ({ p with r := { p.r with Refs := p.r.Refs.set n dv.1 } }, dv.1, none)
      | .error e => (p, d, some e)

/-- The body of `Pack.Append`'s first loop: build a fresh Dynamic with a
new walkNode for each value and `SetValue` it, threading the Pack (whose
write buffer receives the encoded payloads). -/
def Pack.appendLoop (sum : Bytes → Hash) (p : Pack) (objs : List Bytes) :
    Pack × List Dynamic :=
  match objs with
  | [] => (p, [])
  | v :: rest =>
    let pd := Dynamic.SetValue sum p { walkNode := some {} } v
    let pr := Pack.appendLoop sum pd.1 rest
    (pr.1, pd.2 :: pr.2)

/-- The reattachment loop of `Pack.Append`: every entry whose walkNode is
not nil is attached at its current index (`n` is the index of the head of
the remaining list). -/
def reattachFrom (n : Nat) (refs : List Dynamic) : List Dynamic :=
  match refs with
  | [] => []
  | d :: rest =>
    (if d.walkNode.isSome then Dynamic.Attach d n else d) :: reattachFrom (n + 1) rest

/-- `Pack.Append`: no-op on an empty argument list; otherwise build the
new references, append them to `Root.Refs` and re-run the attach loop
over the whole list. -/
def Pack.Append (sum : Bytes → Hash) (p : Pack) (objs : List Bytes) : Pack :=
  match objs with
  | [] => p
  | _ :: _ =>
    let pr := Pack.appendLoop sum p objs
    { pr.1 with r := { pr.1.r with Refs := reattachFrom 0 (pr.1.r.Refs ++ pr.2) } }

/-- `Pack.Pop`: on an empty reference list return a blank Dynamic and nil
error; otherwise take the last entry, unpack it if its walkNode is nil
(creating a fresh walkNode first, as in the source) or `Detach` it, then
clear the last slot for GC and shrink the list by one.  The removal
happens whether or not the unpack succeeded (the source does not return
early on the `Value` error). -/
def Pack.Pop (p : Pack) : Pack × Dynamic × Option Err :=
  match p.r.Refs with
  | [] => (p, {}, none)
  | _ :: _ =>
    let n := p.r.Refs.length
    let dr := p.r.Refs.getD (n - 1) {}
    let de : Dynamic × Option Err :=
      match dr.walkNode with
      | none =>
        let dr₁ : Dynamic := { dr with walkNode := some {} }
        match Dynamic.Value p dr₁ with
        | .ok dv => (dv.1, none)
        | .error e => (dr₁, some e)
      | some _ => (Dynamic.Detach dr, none)
    ({ p with r := { p.r with Refs := (p.r.Refs.set (n - 1) {}).take (n - 1) } },
     de.1, de.2)

/-
Store lemmas.
-/

theorem Store.get_set_self (s : Store) (k : Hash) (v : Bytes) :
    Store.get (Store.set s k v) k = some v := by
  induction s with
  | nil => simp [Store.set, Store.get]
  | cons kv rest ih =>
    obtain ⟨k₀, v₀⟩ := kv
    by_cases h : k₀ = k
    · simp [Store.set, Store.get, h]
    · simp [Store.set, Store.get, h, ih]

theorem Store.get_set_ne (s : Store) (k k' : Hash) (v : Bytes) (h : k ≠ k') :
    Store.get (Store.set s k v) k' = Store.get s k' := by
  induction s with
  | nil => simp [Store.set, Store.get, h]
  | cons kv rest ih =>
    obtain ⟨k₀, v₀⟩ := kv
    by_cases h₀ : k₀ = k
    · subst h₀
      simp [Store.set, Store.get, h]
    · simp [Store.set, Store.get, h₀, ih]

theorem Store.set_set_self (s : Store) (k : Hash) (v : Bytes) :
    Store.set (Store.set s k v) k v = Store.set s k v := by
  induction s with
  | nil => simp [Store.set]
  | cons kv rest ih =>
    obtain ⟨k₀, v₀⟩ := kv
    by_cases h : k₀ = k
    · simp [Store.set, h]
    · simp [Store.set, h, ih]

theorem Store.get_eq_none_of_not_mem (s : Store) (k : Hash)
    (h : k ∉ s.map Prod.fst) : Store.get s k = none := by
  induction s with
  | nil => simp [Store.get]
  | cons kv rest ih =>
    obtain ⟨k₀, v₀⟩ := kv
    simp only [List.map_cons, List.mem_cons, not_or] at h
    simp [Store.get, Ne.symm h.1, ih h.2]

theorem Store.get_setAll_not_mem (src : Store) (dst : Store) (k : Hash)
    (h : k ∉ src.map Prod.fst) :
    Store.get (Store.setAll dst src) k = Store.get dst k := by
  induction src generalizing dst with
  | nil => simp [Store.setAll]
  | cons kv rest ih =>
    obtain ⟨k₀, v₀⟩ := kv
    simp only [List.map_cons, List.mem_cons, not_or] at h
    show Store.get (Store.setAll (Store.set dst k₀ v₀) rest) k = Store.get dst k
    rw [ih _ h.2, Store.get_set_ne _ _ _ _ (Ne.symm h.1)]

theorem Store.get_setAll (src : Store) (dst : Store) (k : Hash) (v : Bytes)
    (hwf : Store.wf src) (hk : Store.get src k = some v) :
    Store.get (Store.setAll dst src) k = some v := by
  induction src generalizing dst with
  | nil => simp [Store.get] at hk
  | cons kv rest ih =>
    obtain ⟨k₀, v₀⟩ := kv
    have hwf' : Store.wf rest := (List.nodup_cons.mp hwf).2
    have hnm : k₀ ∉ rest.map Prod.fst := (List.nodup_cons.mp hwf).1
    show Store.get (Store.setAll (Store.set dst k₀ v₀) rest) k = some v
    by_cases h : k₀ = k
    · subst h
      have hrest : Store.get rest k₀ = none := Store.get_eq_none_of_not_mem _ _ hnm
      simp [Store.get, hrest] at hk
      rw [Store.get_setAll_not_mem _ _ _ hnm, Store.get_set_self, hk]
    · simp only [Store.get, h, if_false] at hk
      exact ih _ hwf' hk

/-
List helper lemmas used by the theorems about the reference list.
-/

theorem take_set_self {α : Type} (l : List α) (i : Nat) (a : α) :
    (l.set i a).take i = l.take i := by
  induction l generalizing i with
  | nil => simp
  | cons x t ih =>
    cases i with
    | zero => simp
    | succ j => simp [List.set, List.take, ih]

theorem get?_take_lt {α : Type} (l : List α) (n j : Nat) (h : j < n) :
    (l.take n).get? j = l.get? j := by
  induction l generalizing n j with
  | nil => simp
  | cons x t ih =>
    cases n with
    | zero => omega
    | succ m =>
      cases j with
      | zero => simp
      | succ i => simpa using ih m i (by omega)

theorem getD_set_self {α : Type} (l : List α) (n : Nat) (a d : α)
    (h : n < l.length) : (l.set n a).getD n d = a := by
  induction l generalizing n with
  | nil => simp at h
  | cons x t ih =>
    cases n with
    | zero => simp [List.set, List.getD]
    | succ j =>
      simp only [List.set, List.getD] at ih ⊢
      exact ih j (by simpa using h)

theorem getD_mem {α : Type} (l : List α) (n : Nat) (d : α)
    (h : n < l.length) : l.getD n d ∈ l := by
  rw [List.getD_eq_getElem l d h]
  exact List.getElem_mem h

/-- `Pack.get` only fails with `notFound`. -/
theorem Pack.get_error (p : Pack) (k : Hash) (e : Err)
    (h : Pack.get p k = .error e) : e = .notFound k := by
  unfold Pack.get at h
  rcases hu : Store.get p.unsaved k with _ | v
  · rcases hd : Store.get p.db k with _ | w
    · simp [hu, hd] at h
      exact h.symm
    · simp [hu, hd] at h
  · simp [hu] at h

/-- `Dynamic.Value` only fails with `notFound` (never `indexOutOfRange`). -/
theorem Dynamic.Value_error (p : Pack) (d : Dynamic) (e : Err)
    (h : Dynamic.Value p d = .error e) : e = .notFound d.objectHash := by
  unfold Dynamic.Value at h
  rcases hw : d.walkNode with _ | wn
  · simp only [hw] at h
    rcases hg : Pack.get p d.objectHash with er | val
    · simp only [hg] at h
      have he : er = e := by simpa using h
      exact he ▸ Pack.get_error p d.objectHash er hg
    · simp only [hg] at h
      simp at h
  · simp only [hw] at h
    rcases hv : wn.value with _ | v
    · simp only [hv] at h
      rcases hg : Pack.get p d.objectHash with er | val
      · simp only [hg] at h
        have he : er = e := by simpa using h
        exact he ▸ Pack.get_error p d.objectHash er hg
      · simp only [hg] at h
        simp at h
    · simp only [hv] at h
      simp at h

/-- `Dynamic.Value` preserves the object hash. -/
theorem Dynamic.Value_objectHash (p : Pack) (d : Dynamic)
    (dv : Dynamic × Bytes) (h : Dynamic.Value p d = .ok dv) :
    dv.1.objectHash = d.objectHash := by
  unfold Dynamic.Value at h
  rcases hw : d.walkNode with _ | wn
  · simp only [hw] at h
    rcases hg : Pack.get p d.objectHash with er | val
    · simp only [hg] at h
      simp at h
    · simp only [hg] at h
      injection h with h₂
      rw [← h₂]
  · simp only [hw] at h
    rcases hv : wn.value with _ | v
    · simp only [hv] at h
      rcases hg : Pack.get p d.objectHash with er | val
      · simp only [hg] at h
        simp at h
      · simp only [hg] at h
        injection h with h₂
        rw [← h₂]
    · simp only [hv] at h
      injection h with h₂
      rw [← h₂]

/-- A successful `Dynamic.Value` leaves the reference materialized. -/
theorem Dynamic.Value_resolved (p : Pack) (d : Dynamic)
    (dv : Dynamic × Bytes) (h : Dynamic.Value p d = .ok dv) :
    dv.1.resolved = true := by
  unfold Dynamic.Value at h
  rcases hw : d.walkNode with _ | wn
  · simp only [hw] at h
    rcases hg : Pack.get p d.objectHash with er | val
    · simp only [hg] at h
      simp at h
    · simp only [hg] at h
      injection h with h₂
      rw [← h₂]
      simp [Dynamic.resolved]
  · simp only [hw] at h
    rcases hv : wn.value with _ | v
    · simp only [hv] at h
      rcases hg : Pack.get p d.objectHash with er | val
      · simp only [hg] at h
        simp at h
      · simp only [hg] at h
        injection h with h₂
        rw [← h₂]
        simp [Dynamic.resolved]
    · simp only [hv] at h
      injection h with h₂
      rw [← h₂]
      simp [Dynamic.resolved, hw, hv]

/-
Claim theorems.
-/

/-- C1: Save atomicity.  If the transaction fails during `Save`, the write
buffer after the failed call equals the write buffer before the call; if
the transaction succeeds, every staged entry is migrated into the read
cache and the write buffer becomes empty. -/
theorem C1_save_atomicity (p : Pack) (now : Int) (tf : Bool)
    (hwf : Store.wf p.unsaved) :
    ((Pack.Save p now tf).2.2.isSome → (Pack.Save p now tf).1.unsaved = p.unsaved) ∧
    ((Pack.Save p now tf).2.2 = none →
      (Pack.Save p now tf).1.unsaved = [] ∧
      ∀ k v, Store.get p.unsaved k = some v →
        Store.get (Pack.Save p now tf).1.cache k = some v) := by
  unfold Pack.Save
  by_cases hvo : p.flags &&& ViewOnly ≠ 0
  · simp [hvo]
  · by_cases htf : (tf && !p.unsaved.isEmpty) = true
    · simp [hvo, htf]
    · simp only [hvo, if_false, htf, ite_false, Bool.not_eq_true]
      refine ⟨fun h => by simp at h, fun _ => ⟨rfl, fun k v hk => ?_⟩⟩
      exact Store.get_setAll _ _ _ _ hwf hk

/-- A concrete Pack used to instantiate hypotheses of the claim theorems:
two staged objects, nothing in the backend. -/
def pStaged : Pack := { unsaved := [(1, [7]), (2, [9])] }

theorem C1_save_atomicity_witness :
    ((Pack.Save pStaged 5 false).2.2.isSome →
      (Pack.Save pStaged 5 false).1.unsaved = pStaged.unsaved) ∧
    ((Pack.Save pStaged 5 false).2.2 = none →
      (Pack.Save pStaged 5 false).1.unsaved = [] ∧
      ∀ k v, Store.get pStaged.unsaved k = some v →
        Store.get (Pack.Save pStaged 5 false).1.cache k = some v) :=
  C1_save_atomicity pStaged 5 false (by decide)

/-- C4: content addressing at the Pack layer.  `get` after `add` returns
the stored bytes under the returned key, and `add` is idempotent: adding
the same bytes twice yields the same key and leaves the Pack (in
particular its write buffer) identical, duplicating no storage. -/
theorem C4_content_addressing (sum : Bytes → Hash) (p : Pack) (b : Bytes) :
    Pack.get (Pack.add sum p b).1 (Pack.add sum p b).2 = .ok b ∧
    (Pack.add sum (Pack.add sum p b).1 b).2 = (Pack.add sum p b).2 ∧
    (Pack.add sum (Pack.add sum p b).1 b).1 = (Pack.add sum p b).1 := by
  refine ⟨?_, rfl, ?_⟩
  · unfold Pack.add Pack.set Pack.get
    simp [Store.get_set_self]
  · unfold Pack.add Pack.set
    simp [Store.set_set_self]

/-- C7: view-only enforcement.  A Pack opened with `ViewOnly` gets
`ErrViewOnlyTree` from `Save`, and the Pack — hence the underlying store
`db` — is left completely unmodified (the flag check precedes the
timestamp stamping and the transaction). -/
theorem C7_view_only (p : Pack) (now : Int) (tf : Bool)
    (h : p.flags &&& ViewOnly ≠ 0) :
    (Pack.Save p now tf).2.2 = some Err.viewOnlyTree ∧
    (Pack.Save p now tf).1 = p ∧
    (Pack.Save p now tf).1.db = p.db := by
  unfold Pack.Save
  simp [h]

/-- A view-only Pack with a staged object, for the C7 witness. -/
def pViewOnly : Pack := { flags := ViewOnly, unsaved := [(3, [1])], db := [(9, [4])] }

theorem C7_view_only_witness :
    (Pack.Save pViewOnly 7 false).2.2 = some Err.viewOnlyTree ∧
    (Pack.Save pViewOnly 7 false).1 = pViewOnly ∧
    (Pack.Save pViewOnly 7 false).1.db = pViewOnly.db :=
  C7_view_only pViewOnly 7 false (by decide)

/-- C8: Pop on an empty Root returns a blank (zero-valued) Dynamic and no
error, and leaves the reference list empty (the Pack is untouched). -/
theorem C8_pop_empty (p : Pack) (h : p.r.Refs = []) :
    (Pack.Pop p).2.1 = ({} : Dynamic) ∧
    (Pack.Pop p).2.2 = none ∧
    (Pack.Pop p).1 = p := by
  unfold Pack.Pop
  rw [h]
  exact ⟨rfl, rfl, rfl⟩

/-- A Pack over an empty Root, for the C8 witness. -/
def pEmptyRoot : Pack := { r := { Seq := 4, Time := 2, Refs := [] } }

theorem C8_pop_empty_witness :
    (Pack.Pop pEmptyRoot).2.1 = ({} : Dynamic) ∧
    (Pack.Pop pEmptyRoot).2.2 = none ∧
    (Pack.Pop pEmptyRoot).1 = pEmptyRoot :=
  C8_pop_empty pEmptyRoot rfl

/-- A Pack at sequence 5 with one staged object, exhibiting the Save
bugs: the sequence is never incremented and the Root is never written. -/
def pSeq : Pack := { r := { Seq := 5 }, unsaved := [(1, [2])] }

/-- C2 (code-bug evidence): the source comment says `setup timestamp and
seq number` but only the timestamp is assigned, so two consecutive
successful `Save` calls leave the Root's sequence at its initial value 5
instead of 6 then 7, and the returned snapshot carries sequence 0. -/
theorem C2_seq_not_incremented :
    (Pack.Save pSeq 3 false).2.2 = none ∧
    (Pack.Save pSeq 3 false).1.r.Seq = 5 ∧
    (Pack.Save (Pack.Save pSeq 3 false).1 4 false).2.2 = none ∧
    (Pack.Save (Pack.Save pSeq 3 false).1 4 false).1.r.Seq = 5 ∧
    (Pack.Save pSeq 3 false).2.1.seq = 0 := by
  decide

/-- C3 (code-bug evidence): saving the Root is a `TODO` in the source and
the named result `root` is never assigned, so a successful `Save` returns
the zero-valued snapshot and its hash is not retrievable from the Content
Store afterwards: only the staged objects were written. -/
theorem C3_root_not_persisted :
    (Pack.Save pSeq 3 false).2.2 = none ∧
    (Pack.Save pSeq 3 false).2.1 = ({} : RootPack) ∧
    Pack.get (Pack.Save pSeq 3 false).1 (Pack.Save pSeq 3 false).2.1.hash =
      .error (.notFound 0) ∧
    (Pack.Save pSeq 3 false).1.db = [(1, [2])] :=
  ⟨rfl, rfl, rfl, rfl⟩

/-- C9: RefByIndex range discipline.  `RefByIndex i` fails with
`ErrIndexOutOfRange` exactly when `i` lies outside `[0, len(Refs))`; for
in-range `i`, when no resolution error occurs, it returns the reference
at position `i` (same object hash as the stored entry, and equal to the
entry at position `i` of the resulting Pack). -/
theorem C9_ref_by_index (p : Pack) (i : Int) :
    ((Pack.RefByIndex p i).2.2 = some Err.indexOutOfRange ↔
      (i < 0 ∨ (p.r.Refs.length : Int) ≤ i)) ∧
    (¬(i < 0 ∨ (p.r.Refs.length : Int) ≤ i) → (Pack.RefByIndex p i).2.2 = none →
      (Pack.RefByIndex p i).2.1.objectHash = (p.r.Refs.getD i.toNat {}).objectHash ∧
      (Pack.RefByIndex p i).2.1 = (Pack.RefByIndex p i).1.r.Refs.getD i.toNat {}) := by
  unfold Pack.RefByIndex
  by_cases hout : i < 0 ∨ (p.r.Refs.length : Int) ≤ i
  · simp [hout]
  · simp only [hout, if_false, iff_false]
    rcases hw : (p.r.Refs.getD i.toNat {}).walkNode with _ | wn
    · simp only [hw]
      rcases hval : Dynamic.Value p (p.r.Refs.getD i.toNat {}) with er | dv
      · have hner : er = .notFound (p.r.Refs.getD i.toNat {}).objectHash :=
          Dynamic.Value_error _ _ _ hval
        simp only [hval, hner]
        refine ⟨by simp, fun _ hn => by simp at hn⟩
      · simp only [hval]
        refine ⟨by simp, fun _ _ => ?_⟩
        have hlen : i.toNat < p.r.Refs.length := by omega
        refine ⟨Dynamic.Value_objectHash _ _ _ hval, ?_⟩
        rw [getD_set_self _ _ _ _ hlen]
    · simp [hw]

/-- A Pack with one already-materialized reference, for the C9 witness. -/
def pIdx : Pack :=
  { r := { Refs := [{ objectHash := 1, walkNode := some { value := some [5] } }] } }

theorem C9_ref_by_index_witness :
    (Pack.RefByIndex pIdx 3).2.2 = some Err.indexOutOfRange ∧
    (Pack.RefByIndex pIdx 0).2.1.objectHash = (pIdx.r.Refs.getD 0 {}).objectHash :=
  ⟨(C9_ref_by_index pIdx 3).1.mpr (by decide),
   (((C9_ref_by_index pIdx 0).2 (by decide)) (by decide)).1⟩

/-- C10: Pop frame condition.  On a Root with a non-empty reference list
of length `n`, `Pop` shrinks the list to exactly `n - 1` entries and
leaves the entries at positions `0 .. n-2` (in particular their hashes)
unchanged: only the last entry is removed. -/
theorem C10_pop_frame (p : Pack) (h : p.r.Refs ≠ []) :
    (Pack.Pop p).1.r.Refs.length = p.r.Refs.length - 1 ∧
    ∀ j, j < p.r.Refs.length - 1 →
      (Pack.Pop p).1.r.Refs.get? j = p.r.Refs.get? j := by
  unfold Pack.Pop
  rcases hr : p.r.Refs with _ | ⟨x, t⟩
  · exact absurd hr h
  · constructor
    · simp [take_set_self, List.length_take]
    · intro j hj
      simp only [List.length_cons] at hj
      simp only [take_set_self]
      simp only [List.length_cons]
      exact get?_take_lt _ _ _ (by omega)

/-- A Pack with two materialized references, for the C10 witness. -/
def pPop : Pack :=
  { r := { Refs := [{ objectHash := 1, walkNode := some { value := some [5] } },
                    { objectHash := 2, walkNode := some { value := some [6] } }] } }

theorem C10_pop_frame_witness :
    (Pack.Pop pPop).1.r.Refs.length = pPop.r.Refs.length - 1 ∧
    ∀ j, j < pPop.r.Refs.length - 1 →
      (Pack.Pop pPop).1.r.Refs.get? j = pPop.r.Refs.get? j :=
  C10_pop_frame pPop (by decide)

/-- Attaching a reference that has a walkNode records exactly the given
index. -/
theorem Dynamic.Attach_pos (d : Dynamic) (n : Nat)
    (h : d.walkNode.isSome = true) :
    (Dynamic.Attach d n).recordedPos = some n := by
  unfold Dynamic.Attach Dynamic.recordedPos
  rcases hw : d.walkNode with _ | wn
  · rw [hw] at h
    simp at h
  · simp

/-- After the reattachment loop started at index `n`, the entry found at
offset `i` that has a walkNode records position `n + i`. -/
theorem reattachFrom_get? (refs : List Dynamic) :
    ∀ n i d, (reattachFrom n refs).get? i = some d →
      d.walkNode.isSome = true → d.recordedPos = some (n + i) := by
  induction refs with
  | nil =>
    intro n i d h hw
    simp [reattachFrom] at h
  | cons x t ih =>
    intro n i d h hw
    cases i with
    | zero =>
      simp only [reattachFrom, List.get?_cons_zero] at h
      injection h with h₂
      by_cases hx : x.walkNode.isSome = true
      · rw [if_pos hx] at h₂
        rw [← h₂, Dynamic.Attach_pos x n hx]
        simp
      · rw [if_neg hx] at h₂
        rw [← h₂] at hw
        exact absurd hw hx
    | succ j =>
      simp only [reattachFrom, List.get?_cons_succ] at h
      rw [ih (n + 1) j d h hw]
      congr 1
      omega

/-- Every entry of a successfully resolved reference list (all entries
initially Unresolved, as in a freshly opened Pack) is materialized. -/
theorem resolveAll_resolves (p : Pack) (refs : List Dynamic)
    (hall : ∀ d ∈ refs, d.walkNode = none)
    (hok : (Pack.resolveAll p refs).2 = none) :
    ∀ d ∈ (Pack.resolveAll p refs).1, d.resolved = true := by
  induction refs with
  | nil =>
    intro d hd
    simp [Pack.resolveAll] at hd
  | cons x t ih =>
    have hx : x.walkNode = none := hall x (by simp)
    have ht : ∀ d ∈ t, d.walkNode = none := fun d hd => hall d (by simp [hd])
    rcases hv : Dynamic.Value p x with er | dv
    · simp only [Pack.resolveAll, hx, hv] at hok
      simp at hok
    · simp only [Pack.resolveAll, hx, hv] at hok ⊢
      intro d hd
      simp only [List.mem_cons] at hd
      rcases hd with hd | hd
      · subst hd
        exact Dynamic.Value_resolved p _ dv hv
      · exact ih ht hok d hd

/-- An Unresolved reference is not materialized. -/
theorem Dynamic.resolved_false (d : Dynamic) (h : d.walkNode = none) :
    d.resolved = false := by
  simp [Dynamic.resolved, h]

/-- `getD` after a `set` at a different index. -/
theorem getD_set_ne {α : Type} (l : List α) (i j : Nat) (a d : α)
    (h : i ≠ j) : (l.set i a).getD j d = l.getD j d := by
  rw [List.getD_eq_getD_get?, List.getD_eq_getD_get?, List.get?_set_ne a l h]

/-- C5: Reattachment.  On an empty Root, `append(a, b, c)` followed by
`pop()` leaves the two remaining top-level references recording positions
0 and 1 exactly; in general, after any non-empty `Append` every entry of
the reference list that carries position bookkeeping records exactly its
actual index. -/
theorem C5_reattachment (sum : Bytes → Hash) (p : Pack) (a b c : Bytes)
    (h : p.r.Refs = []) :
    (Pack.Pop (Pack.Append sum p [a, b, c])).1.r.Refs.map Dynamic.recordedPos
      = [some 0, some 1] ∧
    (∀ (q : Pack) (objs : List Bytes) (i : Nat) (d : Dynamic), objs ≠ [] →
      (Pack.Append sum q objs).r.Refs.get? i = some d →
      d.walkNode.isSome = true → d.recordedPos = some i) := by
  constructor
  · simp [Pack.Append, Pack.appendLoop, Dynamic.SetValue, Pack.set,
          Dynamic.recordedPos, reattachFrom, Dynamic.Attach, Pack.Pop,
          Dynamic.Detach, h, take_set_self]
  · intro q objs i d hne hg hw
    rcases objs with _ | ⟨v, rest⟩
    · exact absurd rfl hne
    · simp only [Pack.Append] at hg
      have := reattachFrom_get? _ 0 i d hg hw
      simpa using this

theorem C5_reattachment_witness :
    (Pack.Pop (Pack.Append (fun b => b.length) ({} : Pack)
        [[1], [2], [3]])).1.r.Refs.map Dynamic.recordedPos = [some 0, some 1] ∧
    (∀ (q : Pack) (objs : List Bytes) (i : Nat) (d : Dynamic), objs ≠ [] →
      (Pack.Append (fun b => b.length) q objs).r.Refs.get? i = some d →
      d.walkNode.isSome = true → d.recordedPos = some i) :=
  C5_reattachment (fun b => b.length) {} [1] [2] [3] rfl

/-- C6: lazy versus eager materialization.  Without `EntireTree`,
`RefByIndex 0` on a freshly opened Pack (all references Unresolved) with
at least two references leaves index 1 untouched and Unresolved while
materializing index 0 (on resolution success); with `EntireTree`, a
successful `init` (which runs `Refs`) materializes every top-level
reference. -/
theorem C6_lazy_eager :
    (∀ q : Pack, q.flags &&& EntireTree = 0 → 2 ≤ q.r.Refs.length →
      (∀ d ∈ q.r.Refs, d.walkNode = none) →
      ((Pack.RefByIndex q 0).1.r.Refs.get? 1 = q.r.Refs.get? 1 ∧
       ((Pack.RefByIndex q 0).1.r.Refs.getD 1 {}).resolved = false) ∧
      ((Pack.RefByIndex q 0).2.2 = none →
        ((Pack.RefByIndex q 0).1.r.Refs.getD 0 {}).resolved = true)) ∧
    (∀ q : Pack, q.flags &&& EntireTree ≠ 0 →
      (∀ d ∈ q.r.Refs, d.walkNode = none) →
      (Pack.init q).2 = none →
      ∀ d ∈ (Pack.init q).1.r.Refs, d.resolved = true) := by
  constructor
  · intro q _ hlen hall
    have h0 : 0 < q.r.Refs.length := by omega
    have h1 : 1 < q.r.Refs.length := by omega
    have hin : ¬((0 : Int) < 0 ∨ (q.r.Refs.length : Int) ≤ 0) := by
      simp only [lt_self_iff_false, false_or, not_le]
      exact_mod_cast h0
    have hd0 : (q.r.Refs.getD 0 {}).walkNode = none :=
      hall _ (getD_mem _ _ _ h0)
    have hd1 : (q.r.Refs.getD 1 {}).walkNode = none :=
      hall _ (getD_mem _ _ _ h1)
    unfold Pack.RefByIndex
    simp only [Int.toNat_zero, hin, if_false, hd0]
    rcases hval : Dynamic.Value q (q.r.Refs.getD 0 {}) with er | dv
    · refine ⟨⟨?_, ?_⟩, fun hn => ?_⟩
      · exact rfl
      · exact Dynamic.resolved_false _ hd1
      · exact Option.noConfusion hn
    · refine ⟨⟨?_, ?_⟩, fun _ => ?_⟩
      · show (q.r.Refs.set 0 dv.1).get? 1 = q.r.Refs.get? 1
        exact List.get?_set_ne _ _ (by omega)
      · show ((q.r.Refs.set 0 dv.1).getD 1 {}).resolved = false
        rw [getD_set_ne _ _ _ _ _ (by omega)]
        exact Dynamic.resolved_false _ hd1
      · show ((q.r.Refs.set 0 dv.1).getD 0 {}).resolved = true
        rw [getD_set_self _ _ _ _ h0]
        exact Dynamic.Value_resolved _ _ _ hval
  · intro q hf hall hok
    unfold Pack.init at hok ⊢
    rw [if_pos hf] at hok ⊢
    exact resolveAll_resolves q q.r.Refs hall hok

/-- A freshly opened lazy Pack: two Unresolved references, both present
in the backend. -/
def pLazy : Pack :=
  { flags := GoTypes,
    r := { Refs := [{ objectHash := 1 }, { objectHash := 2 }] },
    db := [(1, [5]), (2, [6])] }

/-- The same Pack opened with the `EntireTree` flag. -/
def pEager : Pack :=
  { flags := GoTypes ||| EntireTree,
    r := { Refs := [{ objectHash := 1 }, { objectHash := 2 }] },
    db := [(1, [5]), (2, [6])] }

theorem C6_lazy_eager_witness :
    ((Pack.RefByIndex pLazy 0).1.r.Refs.get? 1 = pLazy.r.Refs.get? 1 ∧
     ((Pack.RefByIndex pLazy 0).1.r.Refs.getD 1 {}).resolved = false) ∧
    ((Pack.RefByIndex pLazy 0).2.2 = none →
      ((Pack.RefByIndex pLazy 0).1.r.Refs.getD 0 {}).resolved = true) ∧
    ((Pack.init pEager).2 = none →
      ∀ d ∈ (Pack.init pEager).1.r.Refs, d.resolved = true) :=
  ⟨(C6_lazy_eager.1 pLazy (by decide) (by decide) (by decide)).1,
   (C6_lazy_eager.1 pLazy (by decide) (by decide) (by decide)).2,
   C6_lazy_eager.2 pEager (by decide) (by decide)⟩

end CXO
